import Mathlib

/-!
Shallow embedding of git-submodule-prep (src/git_submodule_prep/prep.py), a tool
that orchestrates configuration, dirtiness/merge queries and merges over a tree
of git repositories linked by submodules that carry a ".gitmodules-prep" file.

Modelling conventions:
* Filesystem paths are lists of path segments below the root, so "/a/b" is
  ["a", "b"].  `normSegs` models os.path.normpath on absolute paths (drops "."
  and empty segments, resolves ".." against the accumulated prefix).
* Python dicts are association lists; `alistFind` models d[k] / d.get(k) and
  `upsert` models d[k] = v.
* Calls into the git library (GitPython) are modelled at their interface:
  repository contents relevant to a function are fields of an explicit state
  value, and functions return the new state.  Python exceptions are modelled by
  Except / Option error values, with the state at raise time kept where a claim
  needs it.
* Unbounded directory recursion (get_submodule_dirs) takes an explicit fuel
  argument; theorems quantify over the fuel.
-/

deriving instance DecidableEq for Except

namespace GitSubmodulePrep

/-- Association-list lookup: models Python dict read access d[k] (as Option:
none models a KeyError / .get default). -/
def alistFind {α β : Type} [DecidableEq α] : List (α × β) → α → Option β
  | [], _ => none
  | e :: rest, k => if e.1 = k then some e.2 else alistFind rest k

/-- Association-list store: models Python dict write d[k] = v (replace the
binding if the key is present, else append it). -/
def upsert {α β : Type} [DecidableEq α] : List (α × β) → α → β → List (α × β)
  | [], k, v => [(k, v)]
  | e :: rest, k, v => if e.1 = k then (k, v) :: rest else e :: upsert rest k v

theorem alistFind_upsert_self {α β : Type} [DecidableEq α]
    (l : List (α × β)) (k : α) (v : β) : alistFind (upsert l k v) k = some v := by
  induction l with
  | nil => simp [upsert, alistFind]
  | cons e rest ih =>
    by_cases h : e.1 = k
    · simp [upsert, h, alistFind]
    · simp [upsert, h, alistFind, ih]

theorem alistFind_upsert_ne {α β : Type} [DecidableEq α]
    (l : List (α × β)) (k k' : α) (v : β) (hne : k' ≠ k) :
    alistFind (upsert l k v) k' = alistFind l k' := by
  induction l with
  | nil => simp [upsert, alistFind, Ne.symm hne]
  | cons e rest ih =>
    by_cases h : e.1 = k
    · simp [upsert, h, alistFind, Ne.symm hne]
    · simp [upsert, h, alistFind, ih]

/-- An absolute filesystem path as its list of segments below the root:
"/a/b" is ["a", "b"], the root "/" is []. -/
abbrev FPath := List String

/-- One step of os.path.normpath on an absolute path: "." and empty segments
vanish, ".." removes the last accumulated segment (at the root it is a no-op,
as for os.path.normpath("/..")). -/
def normStep (acc : List String) (s : String) : List String :=
  if s = "." ∨ s = "" then acc
  else if s = ".." then acc.dropLast
  else acc ++ [s]

/-- Path canonicalization: models path.Path.normpath (os.path.normpath) on an
absolute path. -/
def normSegs (p : FPath) : FPath := p.foldl normStep []

/-- The filesystem and git world the repo-tree walker reads.  All stored paths
are canonical; membership queries normalize their argument first, so two
spellings of the same physical directory answer alike (this models physical
existence checks such as (dir / ".git").exists()). -/
structure FS where
  /-- canonical paths of all existing directories -/
  dirs : List FPath
  /-- canonical paths of directories containing a ".git" entry -/
  gitRoots : List FPath
  /-- canonical paths of directories containing a ".gitmodules-prep" file -/
  prepDirs : List FPath
  /-- declared submodule relative paths of the repository at a canonical path
  (models git.Repo(p).submodules, keeping each entry's path attribute) -/
  submods : List (FPath × List FPath)
deriving DecidableEq

def FS.isDir (fs : FS) (p : FPath) : Bool := fs.dirs.contains (normSegs p)

def FS.isGitRoot (fs : FS) (p : FPath) : Bool := fs.gitRoots.contains (normSegs p)

def FS.hasPrep (fs : FS) (p : FPath) : Bool := fs.prepDirs.contains (normSegs p)

def FS.submodsOf (fs : FS) (p : FPath) : List FPath :=
  (alistFind fs.submods (normSegs p)).getD []

/-- Errors of the upward directory walk: the assert dir_path.isdir() in
find_dir_containing (invalidInput), and the ValueError raised when the
filesystem root is reached without a match (notFound). -/
inductive WalkErr
  | invalidInput
  | notFound
deriving DecidableEq

/-- The loop of find_dir_containing (prep.py:46-56): return the current
directory if the marker is present there, stop (error) once the current
directory is the root "/", else move to the parent ((cur / "..").normpath()).
The fuel bounds the number of parent steps; find_git_root supplies enough. -/
def find_marker_dir (present : FPath → Bool) : Nat → FPath → Option FPath
  | 0, _ => none
  | fuel + 1, cur =>
    if present cur then some cur
    else if normSegs cur = [] then none
    else find_marker_dir present fuel (normSegs (cur ++ [".."]))

/-- find_git_root (prep.py:59-60): find_dir_containing(dir_path, ".git"). -/
def find_git_root (fs : FS) (p : FPath) : Except WalkErr FPath :=
  if fs.isDir p then
    match find_marker_dir (fun d => fs.isGitRoot d) (p.length + 1) p with
    | some r => .ok r
    | none => .error .notFound
  else .error .invalidInput

/-- get_submodule_dirs (prep.py:70-79): for each declared submodule of the
repository, the normalized join of the repository path with the submodule's
relative path, followed (when recurse) by that submodule's own submodule
directories, depth-first in declaration order. -/
def get_submodule_dirs (fs : FS) : Nat → FPath → Bool → List FPath
  | 0, _, _ => []
  | fuel + 1, repo_path, recurse =>
    (fs.submodsOf repo_path).flatMap (fun rel =>
      let d := normSegs (repo_path ++ rel)
      d :: (if recurse then get_submodule_dirs fs fuel d true else []))

/-- get_subprep_dirs (prep.py:95-101): the repository itself and (when recurse)
all its recursive submodule directories, filtered to those whose directory
contains ".gitmodules-prep", each appended in normalized form. -/
def get_subprep_dirs (fs : FS) (fuel : Nat) (repo_path : FPath) (recurse : Bool) :
    List FPath :=
  let submod_dirs := if recurse then get_submodule_dirs fs fuel repo_path true else []
  ((repo_path :: submod_dirs).filter (fun d => fs.hasPrep d)).map normSegs

/-- Accumulating set union: models subprep_dirs |= set(...), keeping one copy
of each element (Python set semantics; iteration order is irrelevant because
the result is sorted afterwards). -/
def dedupAppend (acc l : List FPath) : List FPath :=
  l.foldl (fun a x => if x ∈ a then a else a ++ [x]) acc

/-- Insertion step of sorting by descending path depth. -/
def insertByDepth (x : FPath) : List FPath → List FPath
  | [] => [x]
  | y :: ys => if y.length < x.length then x :: y :: ys else y :: insertByDepth x ys

/-- sorted(s, key=lambda d: len(d.parts()), reverse=True) (prep.py:108): sort
by descending number of path components (the leading "/" returned by parts()
is a constant offset and does not change the order). -/
def sortByDepthDesc (l : List FPath) : List FPath := l.foldr insertByDepth []

/-- The accumulation loop of get_unique_subprep_dirs (prep.py:106-107): for
each child path, find its enclosing git root (an error aborts the whole call)
and union in that root's subprep directories. -/
def gatherPrepDirs (fs : FS) (fuel : Nat) (recurse : Bool) (acc : List FPath) :
    List FPath → Except WalkErr (List FPath)
  | [] => .ok acc
  | c :: cs =>
    match find_git_root fs c with
    | .error e => .error e
    | .ok root =>
      gatherPrepDirs fs fuel recurse (dedupAppend acc (get_subprep_dirs fs fuel root recurse)) cs

/-- get_unique_subprep_dirs (prep.py:104-109): union of subprep directories
over all child paths, sorted deepest-first. -/
def get_unique_subprep_dirs (fs : FS) (fuel : Nat) (child_paths : List FPath)
    (recurse : Bool) : Except WalkErr (List FPath) :=
  match gatherPrepDirs fs fuel recurse [] child_paths with
  | .error e => .error e
  | .ok l => .ok (sortByDepthDesc l)

/-- Position of the first occurrence of a path in a list (list index). -/
def posOf (a : FPath) : List FPath → Nat
  | [] => 0
  | b :: l => if b = a then 0 else posOf a l + 1

theorem mem_insertByDepth {a x : FPath} {l : List FPath} :
    a ∈ insertByDepth x l ↔ a = x ∨ a ∈ l := by
  induction l with
  | nil => simp [insertByDepth]
  | cons y ys ih =>
    by_cases h : y.length < x.length
    · simp only [insertByDepth, if_pos h]
      simp
    · simp only [insertByDepth, if_neg h]
      simp [ih]
      tauto

theorem pairwise_insertByDepth {x : FPath} {l : List FPath}
    (h : l.Pairwise (fun a b => b.length ≤ a.length)) :
    (insertByDepth x l).Pairwise (fun a b => b.length ≤ a.length) := by
  induction l with
  | nil => simp [insertByDepth]
  | cons y ys ih =>
    rcases List.pairwise_cons.mp h with ⟨hy, hys⟩
    by_cases hlt : y.length < x.length
    · simp only [insertByDepth, if_pos hlt]
      refine List.pairwise_cons.mpr ⟨?_, h⟩
      intro b hb
      rcases List.mem_cons.mp hb with rfl | hb
      · exact Nat.le_of_lt hlt
      · exact Nat.le_trans (hy b hb) (Nat.le_of_lt hlt)
    · simp only [insertByDepth, if_neg hlt]
      refine List.pairwise_cons.mpr ⟨?_, ih hys⟩
      intro b hb
      rcases mem_insertByDepth.mp hb with rfl | hb
      · exact Nat.le_of_not_lt hlt
      · exact hy b hb

theorem pairwise_sortByDepthDesc (l : List FPath) :
    (sortByDepthDesc l).Pairwise (fun a b => b.length ≤ a.length) := by
  induction l with
  | nil => simp [sortByDepthDesc]
  | cons x xs ih => exact pairwise_insertByDepth ih

theorem perm_insertByDepth (x : FPath) (l : List FPath) :
    List.Perm (insertByDepth x l) (x :: l) := by
  induction l with
  | nil => simp [insertByDepth]
  | cons y ys ih =>
    by_cases h : y.length < x.length
    · simp only [insertByDepth, if_pos h]
      exact List.Perm.refl _
    · simp only [insertByDepth, if_neg h]
      exact (ih.cons y).trans (List.Perm.swap x y ys)

theorem perm_sortByDepthDesc (l : List FPath) : List.Perm (sortByDepthDesc l) l := by
  induction l with
  | nil => simp [sortByDepthDesc]
  | cons x xs ih =>
    exact (perm_insertByDepth x (sortByDepthDesc xs)).trans (ih.cons x)

theorem nodup_dedupAppend (l : List FPath) (acc : List FPath) (h : acc.Nodup) :
    (dedupAppend acc l).Nodup := by
  induction l generalizing acc with
  | nil => exact h
  | cons x xs ih =>
    by_cases hx : x ∈ acc
    · simpa [dedupAppend, hx] using ih acc h
    · have : (acc ++ [x]).Nodup := by
        simp [List.nodup_append, h, hx]
      simpa [dedupAppend, hx] using ih (acc ++ [x]) this

theorem nodup_gatherPrepDirs (fs : FS) (fuel : Nat) (recurse : Bool)
    (cs : List FPath) (acc out : List FPath)
    (h : gatherPrepDirs fs fuel recurse acc cs = .ok out) (ha : acc.Nodup) :
    out.Nodup := by
  induction cs generalizing acc with
  | nil =>
    simp only [gatherPrepDirs] at h
    cases h
    exact ha
  | cons c cs ih =>
    simp only [gatherPrepDirs] at h
    cases hr : find_git_root fs c with
    | error e => rw [hr] at h; cases h
    | ok root =>
      rw [hr] at h
      exact ih _ h (nodup_dedupAppend _ _ ha)

theorem posOf_lt_of_pairwise {l : List FPath} {A B : FPath}
    (hp : l.Pairwise (fun a b => b.length ≤ a.length))
    (hA : A ∈ l) (hB : B ∈ l) (hlen : B.length < A.length) :
    posOf A l < posOf B l := by
  induction l with
  | nil => cases hA
  | cons x xs ih =>
    rcases List.pairwise_cons.mp hp with ⟨hx, hxs⟩
    by_cases hxA : x = A
    · subst hxA
      have hBx : ¬ x = B := by
        intro h
        rw [h] at hlen
        exact Nat.lt_irrefl _ hlen
      simp [posOf, hBx]
    · have hA' : A ∈ xs := by
        rcases List.mem_cons.mp hA with h | h
        · exact absurd h.symm hxA
        · exact h
      by_cases hxB : x = B
      · exfalso
        have := hx A hA'
        rw [hxB] at this
        exact Nat.not_le_of_lt hlen this
      · have hB' : B ∈ xs := by
          rcases List.mem_cons.mp hB with h | h
          · exact absurd h.symm hxB
          · exact h
        have := ih hxs hA' hB'
        simp [posOf, hxA, hxB]
        omega

theorem count_le_one_of_nodup {l : List FPath} (h : l.Nodup) (a : FPath) :
    l.count a ≤ 1 := by
  induction l with
  | nil => simp
  | cons b l ih =>
    rcases List.nodup_cons.mp h with ⟨hb, hl⟩
    by_cases hab : b = a
    · subst hab
      have hz : l.count b = 0 := List.count_eq_zero.mpr hb
      simp [List.count_cons, hz]
    · have : ¬ (a = b) := fun hh => hab hh.symm
      simp [List.count_cons, this, ih hl]

/-- A nested example world: repository /r with submodule /r/s which itself has
submodule /r/s/t, all three carrying prep configuration. -/
def fsNested : FS :=
  { dirs := [["r"], ["r", "s"], ["r", "s", "t"]]
    gitRoots := [["r"], ["r", "s"], ["r", "s", "t"]]
    prepDirs := [["r"], ["r", "s"], ["r", "s", "t"]]
    submods := [(["r"], [["s"]]), (["r", "s"], [["t"]])] }

/-- C3: in the list returned by get_unique_subprep_dirs (the walker behind
findPrepRoots), a prep-carrying repository whose canonical path strictly
extends another's — i.e. a repository nested inside the other at any submodule
depth — appears strictly before it: the result is sorted by descending path
depth, and nesting means strictly greater depth. -/
theorem get_unique_subprep_dirs_deeper_first
    (fs : FS) (fuel : Nat) (child_paths : List FPath) (recurse : Bool)
    (out : List FPath) (A B rel : FPath)
    (hout : get_unique_subprep_dirs fs fuel child_paths recurse = .ok out)
    (hA : A ∈ out) (hB : B ∈ out) (hrel : A = B ++ rel) (hne : rel ≠ []) :
    posOf A out < posOf B out := by
  have hp : out.Pairwise (fun a b => b.length ≤ a.length) := by
    unfold get_unique_subprep_dirs at hout
    cases hg : gatherPrepDirs fs fuel recurse [] child_paths with
    | error e => rw [hg] at hout; cases hout
    | ok l =>
      rw [hg] at hout
      cases hout
      exact pairwise_sortByDepthDesc l
  have hlen : B.length < A.length := by
    subst hrel
    have : 0 < rel.length := List.length_pos.mpr hne
    simp [List.length_append]
    omega
  exact posOf_lt_of_pairwise hp hA hB hlen

/-- Witness for C3 on fsNested: with recursion, the order is /r/s/t, then
/r/s, then /r, and the theorem places the doubly nested /r/s/t before /r/s. -/
theorem get_unique_subprep_dirs_deeper_first_witness :
    get_unique_subprep_dirs fsNested 5 [["r"]] true =
      .ok [["r", "s", "t"], ["r", "s"], ["r"]] ∧
    posOf ["r", "s", "t"] [["r", "s", "t"], ["r", "s"], ["r"]] <
      posOf ["r", "s"] [["r", "s", "t"], ["r", "s"], ["r"]] := by
  refine ⟨by decide, ?_⟩
  exact get_unique_subprep_dirs_deeper_first fsNested 5 [["r"]] true
    [["r", "s", "t"], ["r", "s"], ["r"]] ["r", "s", "t"] ["r", "s"] ["t"]
    (by decide) (by decide) (by decide) (by decide) (by decide)

/-- C7: for two distinct starting paths whose enclosing repository is the same
physical repository (their git roots have the same canonical path), the list
returned by get_unique_subprep_dirs contains that repository at most once: the
accumulator is a duplicate-free set of canonical paths and sorting only
permutes it. -/
theorem get_unique_subprep_dirs_no_dup
    (fs : FS) (fuel : Nat) (p1 p2 : FPath) (recurse : Bool)
    (out : List FPath) (r1 r2 : FPath)
    (hne : p1 ≠ p2)
    (h1 : find_git_root fs p1 = .ok r1) (h2 : find_git_root fs p2 = .ok r2)
    (hsame : normSegs r1 = normSegs r2)
    (hout : get_unique_subprep_dirs fs fuel [p1, p2] recurse = .ok out) :
    out.count (normSegs r1) ≤ 1 := by
  have hnd : out.Nodup := by
    unfold get_unique_subprep_dirs at hout
    cases hg : gatherPrepDirs fs fuel recurse [] [p1, p2] with
    | error e => rw [hg] at hout; cases hout
    | ok l =>
      rw [hg] at hout
      cases hout
      exact ((perm_sortByDepthDesc l).nodup_iff).mpr
        (nodup_gatherPrepDirs fs fuel recurse [p1, p2] [] l hg List.nodup_nil)
  exact count_le_one_of_nodup hnd _

/-- Witness for C7: the distinct starting paths /r and /r/. (the second not in
canonical form) resolve to the same physical repository; it occurs once. -/
theorem get_unique_subprep_dirs_no_dup_witness :
    get_unique_subprep_dirs fsNested 5 [["r"], ["r", "."]] true =
      .ok [["r", "s", "t"], ["r", "s"], ["r"]] ∧
    List.count (normSegs ["r"]) [["r", "s", "t"], ["r", "s"], ["r"]] ≤ 1 := by
  refine ⟨by decide, ?_⟩
  exact get_unique_subprep_dirs_no_dup fsNested 5 ["r"] ["r", "."] true
    [["r", "s", "t"], ["r", "s"], ["r"]] ["r"] ["r", "."]
    (by decide) (by decide) (by decide) (by decide) (by decide)

/-- One declared submodule of a repository, as get_prep_configs reads it from
git.Repo(prep_dir).submodules: its relative path and its configured branch
reference (branch_path, e.g. "refs/heads/main"). -/
structure SubmodDecl where
  path : FPath
  branch_path : String
deriving DecidableEq

/-- The inputs get_prep_configs reads for one prep directory: the repository's
declared submodules, and the .gitmodules-prep sections as parse_prep returns
them (section path → key/value options). -/
structure PrepDirInfo where
  submodules : List SubmodDecl
  sections : List (FPath × List (String × String))
deriving DecidableEq

/-- Repository contents by canonical prep-directory path. -/
abbrev PrepWorld := List (FPath × PrepDirInfo)

/-- One resolved sync record as built by get_prep_configs: the raw section
options, plus the keys the code adds: path (the relative submodule path) and
branch (the local branch from the parent's live submodule declaration). -/
structure ResolvedCfg where
  options : List (String × String)
  path : FPath
  branch : String
deriving DecidableEq

/-- Errors of get_prep_configs: git.Repo on a missing repository, the
AssertionError on a branch reference that is not refs/heads/<branch>
(prep.py:142), and the KeyError raised at prep.py:149 when a prep section's
path matches no declared submodule — the error the spec calls
ConfigMismatchError. -/
inductive ResolveErr
  | noSuchRepo (p : FPath)
  | assertionError (p : FPath)
  | configMismatch (p : FPath)
deriving DecidableEq

/-- The submodule loop of get_prep_configs (prep.py:141-144): require each
submodule's branch reference to be refs/heads/<branch> and map
path → <branch> ("refs/heads/" has length 11, so removing the guarded
prefix is String.drop 11); a duplicate path overwrites (dict semantics). -/
def collect_submod_branches (acc : List (FPath × String)) :
    List SubmodDecl → Except ResolveErr (List (FPath × String))
  | [] => .ok acc
  | d :: ds =>
    if d.branch_path.startsWith "refs/heads/" then
      collect_submod_branches (upsert acc d.path (d.branch_path.drop 11)) ds
    else .error (.assertionError d.path)

/-- The section loop of get_prep_configs (prep.py:147-150): each prep section
must name a declared submodule path (else the lookup submod_branches[path]
raises KeyError, modelled as configMismatch); on success the resolved record
is stored under the normalized join (prep_dir / path).normpath(). -/
def resolve_sections (prep_dir : FPath) (submod_branches : List (FPath × String))
    (acc : List (FPath × ResolvedCfg)) :
    List (FPath × List (String × String)) → Except ResolveErr (List (FPath × ResolvedCfg))
  | [] => .ok acc
  | (p, kv) :: rest =>
    match alistFind submod_branches p with
    | none => .error (.configMismatch p)
    | some b =>
      resolve_sections prep_dir submod_branches
        (upsert acc (normSegs (prep_dir ++ p)) ⟨kv, p, b⟩) rest

/-- get_prep_configs (prep.py:136-152): for every prep directory in order,
read its submodule declarations, parse its prep sections, and resolve every
section against the declared submodules; any failure aborts the whole call. -/
def get_prep_configs (world : PrepWorld) (acc : List (FPath × ResolvedCfg)) :
    List FPath → Except ResolveErr (List (FPath × ResolvedCfg))
  | [] => .ok acc
  | d :: ds =>
    match alistFind world (normSegs d) with
    | none => .error (.noSuchRepo d)
    | some info =>
      match collect_submod_branches [] info.submodules with
      | .error e => .error e
      | .ok submod_branches =>
        match resolve_sections d submod_branches acc info.sections with
        | .error e => .error e
        | .ok acc2 => get_prep_configs world acc2 ds

theorem alistFind_upsert_pres {α β : Type} [DecidableEq α]
    (l : List (α × β)) (k k2 : α) (v : β) (v2 : β)
    (h : alistFind l k = some v) :
    ∃ v', alistFind (upsert l k2 v2) k = some v' := by
  by_cases hk : k = k2
  · subst hk
    exact ⟨v2, alistFind_upsert_self l k v2⟩
  · exact ⟨v, by rw [alistFind_upsert_ne l k2 k v2 hk, h]⟩

theorem collect_pres (ds : List SubmodDecl) (acc bs : List (FPath × String))
    (k : FPath) (v : String)
    (h : collect_submod_branches acc ds = .ok bs)
    (hk : alistFind acc k = some v) :
    ∃ v', alistFind bs k = some v' := by
  induction ds generalizing acc v with
  | nil =>
    simp only [collect_submod_branches] at h
    cases h
    exact ⟨v, hk⟩
  | cons d ds ih =>
    simp only [collect_submod_branches] at h
    by_cases hs : d.branch_path.startsWith "refs/heads/" = true
    · rw [if_pos hs] at h
      obtain ⟨v', hv'⟩ := alistFind_upsert_pres acc k d.path v (d.branch_path.drop 11) hk
      exact ih _ v' h hv'
    · rw [if_neg hs] at h
      cases h

theorem collect_mem_key (ds : List SubmodDecl) (acc bs : List (FPath × String))
    (s : SubmodDecl)
    (h : collect_submod_branches acc ds = .ok bs) (hmem : s ∈ ds) :
    ∃ v, alistFind bs s.path = some v := by
  induction ds generalizing acc with
  | nil => cases hmem
  | cons d ds ih =>
    simp only [collect_submod_branches] at h
    by_cases hs : d.branch_path.startsWith "refs/heads/" = true
    · rw [if_pos hs] at h
      rcases List.mem_cons.mp hmem with rfl | hmem'
      · exact collect_pres ds _ bs s.path (s.branch_path.drop 11) h
          (alistFind_upsert_self acc s.path (s.branch_path.drop 11))
      · exact ih _ h hmem'
    · rw [if_neg hs] at h
      cases h

theorem collect_find_none (ds : List SubmodDecl) (acc bs : List (FPath × String))
    (p : FPath)
    (h : collect_submod_branches acc ds = .ok bs)
    (hacc : alistFind acc p = none)
    (hds : ∀ s ∈ ds, s.path ≠ p) :
    alistFind bs p = none := by
  induction ds generalizing acc with
  | nil =>
    simp only [collect_submod_branches] at h
    cases h
    exact hacc
  | cons d ds ih =>
    simp only [collect_submod_branches] at h
    by_cases hs : d.branch_path.startsWith "refs/heads/" = true
    · rw [if_pos hs] at h
      refine ih _ h ?_ (fun s hsm => hds s (List.mem_cons_of_mem d hsm))
      rw [alistFind_upsert_ne acc d.path p (d.branch_path.drop 11)
        (fun hh => hds d (List.mem_cons_self d ds) hh.symm)]
      exact hacc
    · rw [if_neg hs] at h
      cases h

theorem collect_ok (ds : List SubmodDecl) (acc : List (FPath × String))
    (h : ∀ s ∈ ds, s.branch_path.startsWith "refs/heads/" = true) :
    ∃ bs, collect_submod_branches acc ds = .ok bs := by
  induction ds generalizing acc with
  | nil => exact ⟨acc, rfl⟩
  | cons d ds ih =>
    have hd := h d (List.mem_cons_self d ds)
    simp only [collect_submod_branches, if_pos hd]
    exact ih _ (fun s hsm => h s (List.mem_cons_of_mem d hsm))

theorem resolve_sections_mismatch
    (sections : List (FPath × List (String × String)))
    (prep_dir : FPath) (submod_branches : List (FPath × String))
    (acc : List (FPath × ResolvedCfg)) (p : FPath) (kv : List (String × String))
    (hmem : (p, kv) ∈ sections)
    (hnone : alistFind submod_branches p = none) :
    ∃ q, resolve_sections prep_dir submod_branches acc sections =
        .error (.configMismatch q) ∧ alistFind submod_branches q = none := by
  induction sections generalizing acc with
  | nil => cases hmem
  | cons e rest ih =>
    obtain ⟨p', kv'⟩ := e
    cases hf : alistFind submod_branches p' with
    | none =>
      exact ⟨p', by simp only [resolve_sections, hf], hf⟩
    | some b =>
      have hmem' : (p, kv) ∈ rest := by
        rcases List.mem_cons.mp hmem with heq | hmem'
        · exfalso
          have : p = p' := congrArg Prod.fst heq
          rw [this, hf] at hnone
          cases hnone
        · exact hmem'
      obtain ⟨q, hq, hqn⟩ := ih _ hmem'
      exact ⟨q, by simp only [resolve_sections, hf]; exact hq, hqn⟩

/-- C5: if a prep-carrying repository's prep configuration contains a section
whose relative path matches no submodule declared by that repository, then
get_prep_configs fails with the configuration-mismatch error (the KeyError at
prep.py:149, which the spec names ConfigMismatchError) — the erroring path is
itself an undeclared one — and no mapping of sync records is produced. -/
theorem get_prep_configs_mismatch_error
    (world : PrepWorld) (d : FPath) (info : PrepDirInfo) (p : FPath)
    (kv : List (String × String))
    (hinfo : alistFind world (normSegs d) = some info)
    (hrefs : ∀ s ∈ info.submodules, s.branch_path.startsWith "refs/heads/" = true)
    (hsec : (p, kv) ∈ info.sections)
    (hmiss : ∀ s ∈ info.submodules, s.path ≠ p) :
    ∃ q, get_prep_configs world [] [d] = .error (.configMismatch q) ∧
      ∀ s ∈ info.submodules, s.path ≠ q := by
  obtain ⟨bs, hbs⟩ := collect_ok info.submodules [] hrefs
  have hnone : alistFind bs p = none :=
    collect_find_none info.submodules [] bs p hbs rfl hmiss
  obtain ⟨q, herr, hqnone⟩ :=
    resolve_sections_mismatch info.sections d bs [] p kv hsec hnone
  refine ⟨q, ?_, ?_⟩
  · simp only [get_prep_configs, hinfo, hbs, herr]
  · intro s hsm heq
    obtain ⟨v, hv⟩ := collect_mem_key info.submodules [] bs s hbs hsm
    rw [heq, hqnone] at hv
    cases hv

/-- A prep world matching the spec's example: the repository at /a declares no
submodules, yet its prep file has a section for vendor/lib. -/
def worldMismatch : PrepWorld :=
  [(["a"],
    { submodules := []
      sections := [(["vendor", "lib"],
        [("upstream_url", "https://example.org/lib.git"),
         ("upstream_branch", "upstream-main")])] })]

/-- Witness for C5: resolving /a fails with the configuration-mismatch error
instead of producing a sync record for vendor/lib. -/
theorem get_prep_configs_mismatch_error_witness :
    ∃ q, get_prep_configs worldMismatch [] [["a"]] =
        .error (.configMismatch q) ∧
      ∀ s ∈ (PrepDirInfo.submodules
        { submodules := []
          sections := [(["vendor", "lib"],
            [("upstream_url", "https://example.org/lib.git"),
             ("upstream_branch", "upstream-main")])] }), s.path ≠ q :=
  get_prep_configs_mismatch_error worldMismatch ["a"] _ ["vendor", "lib"]
    [("upstream_url", "https://example.org/lib.git"),
     ("upstream_branch", "upstream-main")]
    (by decide) (by decide) (by decide) (by decide)

/-- The working-tree facts Repo.is_dirty reads, as counts of diff entries:
staged (index vs current commit) and unstaged (working tree vs index)
changes, each split into entries outside and inside submodules; untracked
files likewise; plus whether an index file exists (the library skips the
staged check without one). -/
structure WorkTree where
  stagedNonSub : Nat
  stagedSub : Nat
  unstagedNonSub : Nat
  unstagedSub : Nat
  untrackedNonSub : Nat
  untrackedSub : Nat
  indexFileExists : Bool
deriving DecidableEq

/-- The git library's Repo.is_dirty(index, working_tree, untracked_files,
submodules): with submodules false the diffs ignore submodules; untracked
files count only when untracked_files is true — and its default is false.
This models the external GitPython call made at prep.py:114. -/
def gitpython_is_dirty (w : WorkTree)
    (index working_tree untracked_files submodules : Bool) : Bool :=
  (index && w.indexFileExists &&
    decide (0 < w.stagedNonSub + (if submodules then w.stagedSub else 0))) ||
  (working_tree &&
    decide (0 < w.unstagedNonSub + (if submodules then w.unstagedSub else 0))) ||
  (untracked_files &&
    decide (0 < w.untrackedNonSub + (if submodules then w.untrackedSub else 0)))

/-- is_dirty (prep.py:112-114): repo.is_dirty(submodules=False), leaving the
library defaults index=True, working_tree=True, untracked_files=False. -/
def is_dirty (w : WorkTree) : Bool := gitpython_is_dirty w true true false false

/-- The dirtiness predicate in the spec's words, for comparison with the
code's is_dirty: untracked files, unstaged changes, or staged changes
relative to the current commit, excluding submodule-internal state. -/
def spec_is_dirty (w : WorkTree) : Bool :=
  decide (0 < w.untrackedNonSub) || decide (0 < w.unstagedNonSub) ||
    decide (0 < w.stagedNonSub)

/-- Counterexample to C6: a repository whose only change is a single untracked
file. The spec's predicate calls it dirty, but is_dirty returns false, because
repo.is_dirty is invoked without untracked_files=True. -/
theorem is_dirty_untracked_counterexample :
    is_dirty ⟨0, 0, 0, 0, 1, 0, true⟩ = false ∧
      spec_is_dirty ⟨0, 0, 0, 0, 1, 0, true⟩ = true := by decide

/-- C6 amended: is_dirty is a pure query returning true exactly when there are
staged changes (when an index file exists) or unstaged changes relative to the
current commit, excluding submodule-internal state; untracked files alone do
not make the repository dirty. -/
theorem is_dirty_characterization (w : WorkTree) :
    is_dirty w =
      ((w.indexFileExists && decide (0 < w.stagedNonSub)) ||
        decide (0 < w.unstagedNonSub)) := by
  simp [is_dirty, gitpython_is_dirty]

/-- A remote as created by repo.create_remote(name, url=..., t=branch): its
name, its URL, and the single branch it is set up to track. -/
structure Remote where
  name : String
  url : String
  track : String
deriving DecidableEq

/-- A local branch together with its tracking branch
(set_tracking_branch). -/
structure BranchInfo where
  name : String
  tracking : Option String
deriving DecidableEq

/-- The repository state config_module touches: its remotes, its local
branches, and the remote-tracking reference names available for lookup as
repo.refs["origin/x"] / repo.refs["upstream/y"] (the only shapes this code
looks up). -/
structure ModRepo where
  remotes : List Remote
  branches : List BranchInfo
  refs : List String
deriving DecidableEq

/-- The record fields config_module reads from a resolved sync record. -/
structure PrepCfg where
  branch : String
  upstream_branch : String
  upstream_url : String
deriving DecidableEq

/-- The IndexError the git library raises when repo.refs[name] is absent. -/
inductive ConfigErr
  | missingRef (r : String)
deriving DecidableEq

/-- Membership test "upstream" in repo.remotes: by remote name. -/
def hasRemote (r : ModRepo) (n : String) : Bool :=
  r.remotes.any (fun rem => rem.name == n)

/-- Membership test name in repo.branches: by branch name. -/
def hasBranch (r : ModRepo) (n : String) : Bool :=
  r.branches.any (fun b => b.name == n)

def hasRef (r : ModRepo) (n : String) : Bool := r.refs.contains n

/-- repo.create_remote(name, url=..., t=track): appends the remote. -/
def create_remote (r : ModRepo) (name url track : String) : ModRepo :=
  { r with remotes := r.remotes ++ [⟨name, url, track⟩] }

/-- One branch-ensuring step of config_module (prep.py:161-168): when the
local branch is missing, look up the remote-tracking ref (raising, with the
state unchanged, when it is absent), create the branch from it and set its
tracking branch. -/
def ensure_branch (r : ModRepo) (name remoteRef : String) : ModRepo × Option ConfigErr :=
  if hasBranch r name then (r, none)
  else if hasRef r remoteRef then
    ({ r with branches := r.branches ++ [⟨name, some remoteRef⟩] }, none)
  else (r, some (.missingRef remoteRef))

/-- config_module (prep.py:155-168): add an "upstream" remote only when that
remote name is absent (an existing one is neither checked nor updated), then
ensure that a local branch exists for the record's branch (tracking
origin/<branch>) and for the upstream branch (tracking
upstream/<upstream_branch>). The state at the time an exception propagates is
returned alongside the error. -/
def config_module (prep_cfg : PrepCfg) (r : ModRepo) : ModRepo × Option ConfigErr :=
  let r1 := if hasRemote r "upstream" then r
            else create_remote r "upstream" prep_cfg.upstream_url prep_cfg.upstream_branch
  let s2 := ensure_branch r1 prep_cfg.branch (String.append "origin/" prep_cfg.branch)
  match s2.2 with
  | some e => (s2.1, some e)
  | none =>
    ensure_branch s2.1 prep_cfg.upstream_branch
      (String.append "upstream/" prep_cfg.upstream_branch)

theorem ensure_branch_remotes (r : ModRepo) (n ref : String) :
    (ensure_branch r n ref).1.remotes = r.remotes := by
  unfold ensure_branch
  split
  · rfl
  · split <;> rfl

theorem ensure_branch_none_has (r r' : ModRepo) (n ref : String)
    (h : ensure_branch r n ref = (r', none)) : hasBranch r' n = true := by
  by_cases h1 : hasBranch r n = true
  · rw [ensure_branch, if_pos h1] at h
    cases h
    exact h1
  · rw [ensure_branch, if_neg h1] at h
    by_cases h2 : hasRef r ref = true
    · rw [if_pos h2] at h
      cases h
      simp [hasBranch]
    · rw [if_neg h2] at h
      exact absurd (congrArg Prod.snd h) (by simp)

theorem ensure_branch_mono (r : ModRepo) (n ref m : String)
    (hm : hasBranch r m = true) : hasBranch (ensure_branch r n ref).1 m = true := by
  unfold ensure_branch
  split
  · exact hm
  · split
    · simp only [hasBranch] at hm ⊢
      simp [List.any_append, hm]
    · exact hm

theorem ensure_branch_idem (r : ModRepo) (n ref : String)
    (h : hasBranch r n = true) : ensure_branch r n ref = (r, none) := by
  rw [ensure_branch, if_pos h]

theorem config_module_ok_state (cfg : PrepCfg) (r r' : ModRepo)
    (h : config_module cfg r = (r', none)) :
    hasRemote r' "upstream" = true ∧ hasBranch r' cfg.branch = true ∧
      hasBranch r' cfg.upstream_branch = true := by
  simp only [config_module] at h
  set r1 := (if hasRemote r "upstream" = true then r
    else create_remote r "upstream" cfg.upstream_url cfg.upstream_branch) with hr1
  have hrem1 : hasRemote r1 "upstream" = true := by
    rw [hr1]
    by_cases hc : hasRemote r "upstream" = true
    · rw [if_pos hc]
      exact hc
    · rw [if_neg hc]
      simp [hasRemote, create_remote, List.any_append]
  cases ho : (ensure_branch r1 cfg.branch (String.append "origin/" cfg.branch)).2 with
  | some e =>
    rw [ho] at h
    have h2 : ((ensure_branch r1 cfg.branch (String.append "origin/" cfg.branch)).1,
        some e) = (r', none) := h
    exact absurd (congrArg Prod.snd h2) (by simp)
  | none =>
    rw [ho] at h
    have h2 : ensure_branch
        (ensure_branch r1 cfg.branch (String.append "origin/" cfg.branch)).1
        cfg.upstream_branch (String.append "upstream/" cfg.upstream_branch) =
        (r', none) := h
    have he1 : ensure_branch r1 cfg.branch (String.append "origin/" cfg.branch) =
        ((ensure_branch r1 cfg.branch (String.append "origin/" cfg.branch)).1, none) := by
      rw [← ho]
    have hb2 : hasBranch (ensure_branch r1 cfg.branch
        (String.append "origin/" cfg.branch)).1 cfg.branch = true :=
      ensure_branch_none_has r1 _ cfg.branch _ he1
    have hrm2 : (ensure_branch r1 cfg.branch
        (String.append "origin/" cfg.branch)).1.remotes = r1.remotes :=
      ensure_branch_remotes r1 cfg.branch _
    refine ⟨?_, ?_, ?_⟩
    · have : r'.remotes = r1.remotes := by
        have := ensure_branch_remotes (ensure_branch r1 cfg.branch
          (String.append "origin/" cfg.branch)).1 cfg.upstream_branch
          (String.append "upstream/" cfg.upstream_branch)
        rw [h2] at this
        rw [this, hrm2]
      simp only [hasRemote] at hrem1 ⊢
      rw [this]
      exact hrem1
    · have := ensure_branch_mono (ensure_branch r1 cfg.branch
        (String.append "origin/" cfg.branch)).1 cfg.upstream_branch
        (String.append "upstream/" cfg.upstream_branch) cfg.branch hb2
      rw [h2] at this
      exact this
    · exact ensure_branch_none_has _ r' cfg.upstream_branch _ h2

/-- C8: configure is idempotent. If config_module on a record succeeds with
resulting repository state r', running it again from r' is a no-op: the same
state comes back (no duplicate "upstream" remote, no new branches) and no
error is raised. -/
theorem config_module_idempotent (cfg : PrepCfg) (r r' : ModRepo)
    (h : config_module cfg r = (r', none)) :
    config_module cfg r' = (r', none) := by
  obtain ⟨hrem, hb, hub⟩ := config_module_ok_state cfg r r' h
  simp only [config_module, if_pos hrem, ensure_branch_idem r' cfg.branch _ hb]
  exact ensure_branch_idem r' cfg.upstream_branch _ hub

/-- The repository state of the C8 witness before configuration: no remotes,
no local branches, both remote-tracking refs available. -/
def repoFresh : ModRepo :=
  { remotes := [], branches := [], refs := ["origin/main", "upstream/dev"] }

/-- The repository state after the first successful config_module run on
repoFresh with cfgMainDev. -/
def repoConfigured : ModRepo :=
  { remotes := [⟨"upstream", "https://example.org/up.git", "dev"⟩]
    branches := [⟨"main", some "origin/main"⟩, ⟨"dev", some "upstream/dev"⟩]
    refs := ["origin/main", "upstream/dev"] }

def cfgMainDev : PrepCfg :=
  { branch := "main", upstream_branch := "dev", upstream_url := "https://example.org/up.git" }

/-- Witness for C8: after the first configure run on repoFresh, a second run
returns the same state with no error. -/
theorem config_module_idempotent_witness :
    config_module cfgMainDev repoConfigured = (repoConfigured, none) :=
  config_module_idempotent cfgMainDev repoFresh repoConfigured (by decide)

/-- C10: when a remote named "upstream" already exists, config_module leaves
the remote list entirely unchanged — even when that remote's URL differs from
the record's upstream_url — regardless of whether the branch steps succeed. -/
theorem config_module_preserves_existing_upstream (cfg : PrepCfg) (r : ModRepo)
    (rem : Remote) (hmem : rem ∈ r.remotes) (hname : rem.name = "upstream")
    (hurl : rem.url ≠ cfg.upstream_url) :
    (config_module cfg r).1.remotes = r.remotes := by
  have hrem : hasRemote r "upstream" = true := by
    simp only [hasRemote, List.any_eq_true]
    exact ⟨rem, hmem, by simp [hname]⟩
  have k1 : (ensure_branch r cfg.branch (String.append "origin/" cfg.branch)).1.remotes
      = r.remotes := ensure_branch_remotes r cfg.branch _
  cases ho : (ensure_branch r cfg.branch (String.append "origin/" cfg.branch)).2 with
  | some e =>
    simp only [config_module, if_pos hrem, ho]
    exact k1
  | none =>
    simp only [config_module, if_pos hrem, ho]
    rw [ensure_branch_remotes]
    exact k1

/-- A repository that already has an "upstream" remote whose URL differs from
the record's upstream_url. -/
def repoOldUpstream : ModRepo :=
  { remotes := [⟨"upstream", "https://example.org/old.git", "dev"⟩]
    branches := [], refs := [] }

/-- Witness for C10: configuring repoOldUpstream with a record pointing at a
different upstream URL leaves its remotes unchanged. -/
theorem config_module_preserves_existing_upstream_witness :
    (config_module cfgMainDev repoOldUpstream).1.remotes = repoOldUpstream.remotes :=
  config_module_preserves_existing_upstream cfgMainDev repoOldUpstream
    ⟨"upstream", "https://example.org/old.git", "dev"⟩
    (by decide) (by decide) (by decide)

/-- A commit: its parent commit ids and its message.  Commit ids are indices
into the repository's commit list (a commit's parents were created before it,
but no theorem below needs that invariant). -/
structure GitCommit where
  parents : List Nat
  message : String
deriving DecidableEq

/-- What the one git merge invocation inside merge_repo does in the repository
at hand: either the merge command reports a hard error (GitCommandError), or
it completes leaving some number of unmerged (conflicted) blobs in the index
(zero for a clean merge). -/
inductive MergeOutcome
  | hardError (msg : String)
  | completed (unmergedBlobs : Nat)
deriving DecidableEq

/-- The repository state merge_repo reads and writes: the commit store, the
local branches (name → tip commit id), the checked-out branch, and the
outcome the external merge command would produce here. -/
structure MergeRepoState where
  commits : List GitCommit
  branches : List (String × Nat)
  activeBranch : String
  mergeOutcome : MergeOutcome
deriving DecidableEq

/-- Python exceptions that can escape merge_repo: the IndexError from a
repo.branches[name] lookup of a missing branch, and the TypeError raised by
the string concatenation "\n" + e at prep.py:209. -/
inductive PyErr
  | typeError
  | indexError
deriving DecidableEq

/-- How a merge_repo call ends: returns True (MERGED), returns False
(UNMERGED), or propagates a Python exception. -/
inductive MergeResult
  | merged
  | unmerged
  | raised (e : PyErr)
deriving DecidableEq

/-- The record fields merge_repo reads from a resolved sync record:
cfg["branch"] and cfg["upstream_branch"]. -/
structure MergeCfg where
  branch : String
  upstream_branch : String
deriving DecidableEq

/-- merge_repo (prep.py:195-217) for a present prep_cfg (a resolved sync
record supplies branch and upstream_branch; the prep_cfg=None path, which
reads the active branch, is not taken for resolved records).  Steps: look up
both branches (IndexError on a missing one), check out the local branch, run
git merge --no-commit <upstream_branch>.  On a GitCommandError the handler
executes print("\n" + e) — which raises TypeError, because a str and an
exception cannot be concatenated — so the exception propagates with no commit
created.  If unmerged blobs remain, return False with no commit created.
Otherwise commit with parents (local tip, upstream tip) and message
"Merge <upstream_branch> into <branch>", advancing the checked-out branch to
the new commit, and return True. -/
def merge_repo (prep_cfg : MergeCfg) (s : MergeRepoState) : MergeRepoState × MergeResult :=
  match alistFind s.branches prep_cfg.branch with
  | none => (s, .raised .indexError)
  | some myTip =>
    match alistFind s.branches prep_cfg.upstream_branch with
    | none => (s, .raised .indexError)
    | some upTip =>
      match s.mergeOutcome with
      | .hardError _ => ({ s with activeBranch := prep_cfg.branch }, .raised .typeError)
      | .completed n =>
        if 0 < n then ({ s with activeBranch := prep_cfg.branch }, .unmerged)
        else
          ({ s with
              activeBranch := prep_cfg.branch
              commits := s.commits ++
                [⟨[myTip, upTip],
                  String.append (String.append (String.append "Merge "
                    prep_cfg.upstream_branch) " into ") prep_cfg.branch⟩]
              branches := upsert s.branches prep_cfg.branch s.commits.length },
           .merged)

/-- Bounded ancestor search over the commit store: a is an ancestor of b when
a = b or a is an ancestor of one of b's parents.  The fuel is always given as
more than the number of commits, which covers every path when parents precede
children. -/
def ancestorFuel (commits : List GitCommit) : Nat → Nat → Nat → Bool
  | 0, _, _ => false
  | fuel + 1, a, b =>
    a == b || (((commits[b]?).map GitCommit.parents).getD []).any
      (fun p => ancestorFuel commits fuel a p)

/-- repo.is_ancestor(a, b): whether commit a is an ancestor of commit b. -/
def is_ancestor (commits : List GitCommit) (a b : Nat) : Bool :=
  ancestorFuel commits (commits.length + 1) a b

/-- repo_needs_merge (prep.py:121-125): look up both branch heads (IndexError
when missing) and report that a merge is needed exactly when the upstream
branch head is not an ancestor of the local branch head. -/
def repo_needs_merge (s : MergeRepoState) (branch upstream_branch : String) :
    Except PyErr Bool :=
  match alistFind s.branches branch with
  | none => .error .indexError
  | some branch_head =>
    match alistFind s.branches upstream_branch with
    | none => .error .indexError
    | some upstream_branch_head =>
      .ok (!is_ancestor s.commits upstream_branch_head branch_head)

theorem ancestorFuel_succ (commits : List GitCommit) (fuel a b : Nat) :
    ancestorFuel commits (fuel + 1) a b =
      (a == b || (((commits[b]?).map GitCommit.parents).getD []).any
        (fun p => ancestorFuel commits fuel a p)) := rfl

theorem getElem?_append_last {α : Type} (l : List α) (c : α) :
    (l ++ [c])[l.length]? = some c := by
  induction l with
  | nil => rfl
  | cons x xs ih =>
    simp only [List.cons_append, List.length_cons, List.getElem?_cons_succ]
    exact ih

theorem ancestorFuel_self (commits : List GitCommit) (fuel a : Nat) :
    ancestorFuel commits (fuel + 1) a a = true := by
  rw [ancestorFuel_succ]
  simp

theorem is_ancestor_self (commits : List GitCommit) (a : Nat) :
    is_ancestor commits a a = true :=
  ancestorFuel_self commits commits.length a

theorem is_ancestor_parent (commits : List GitCommit) (c : GitCommit) (a : Nat)
    (ha : a ∈ c.parents) : is_ancestor (commits ++ [c]) a commits.length = true := by
  have hlen : (commits ++ [c]).length + 1 = (commits.length + 1) + 1 := by simp
  unfold is_ancestor
  rw [hlen, ancestorFuel_succ, getElem?_append_last]
  have hany : c.parents.any
      (fun p => ancestorFuel (commits ++ [c]) (commits.length + 1) a p) = true :=
    List.any_eq_true.mpr ⟨a, ha, ancestorFuel_self (commits ++ [c]) commits.length a⟩
  simp [hany]

/-- The C1 failing input: branches main (local) and dev (upstream mirror)
both exist, and the merge command reports a hard error. -/
def stateHardError : MergeRepoState :=
  { commits := [⟨[], "root"⟩, ⟨[0], "local work"⟩, ⟨[0], "upstream work"⟩]
    branches := [("main", 1), ("dev", 2)]
    activeBranch := "main"
    mergeOutcome := .hardError "fatal: refusing to merge unrelated histories" }

/-- C1 at the failing input: when the merge command reports a hard error,
merge_repo does not return UNMERGED — the logging statement "\n" + e raises
TypeError, which propagates — although no commit is created on any branch
(the commit store is unchanged). -/
theorem merge_repo_hard_error_raises :
    merge_repo ⟨"main", "dev"⟩ stateHardError =
      ({ stateHardError with activeBranch := "main" }, .raised .typeError) ∧
    (merge_repo ⟨"main", "dev"⟩ stateHardError).1.commits = stateHardError.commits := by
  decide

/-- C4: when both branches of the record exist and the merge attempt completes
with zero unmerged blobs, merge_repo returns MERGED, appends exactly one
commit whose parents are the prior local branch tip and the upstream branch
tip and whose message is "Merge <upstream_branch> into <local_branch>", and
the local branch now points at that commit. -/
theorem merge_repo_clean_creates_merge_commit
    (cfg : MergeCfg) (s : MergeRepoState) (myTip upTip : Nat)
    (h1 : alistFind s.branches cfg.branch = some myTip)
    (h2 : alistFind s.branches cfg.upstream_branch = some upTip)
    (h3 : s.mergeOutcome = .completed 0) :
    (merge_repo cfg s).2 = .merged ∧
    (merge_repo cfg s).1.commits = s.commits ++
      [⟨[myTip, upTip], String.append (String.append (String.append "Merge "
        cfg.upstream_branch) " into ") cfg.branch⟩] ∧
    alistFind (merge_repo cfg s).1.branches cfg.branch = some s.commits.length := by
  simp only [merge_repo, h1, h2, h3, Nat.lt_irrefl, if_false]
  exact ⟨trivial, trivial, alistFind_upsert_self s.branches cfg.branch s.commits.length⟩

/-- A state in which the merge attempt completes cleanly. -/
def stateClean : MergeRepoState :=
  { commits := [⟨[], "root"⟩, ⟨[0], "local work"⟩, ⟨[0], "upstream work"⟩]
    branches := [("main", 1), ("dev", 2)]
    activeBranch := "main"
    mergeOutcome := .completed 0 }

/-- Witness for C4 on stateClean. -/
theorem merge_repo_clean_creates_merge_commit_witness :
    (merge_repo ⟨"main", "dev"⟩ stateClean).2 = .merged ∧
    (merge_repo ⟨"main", "dev"⟩ stateClean).1.commits = stateClean.commits ++
      [⟨[1, 2], String.append (String.append (String.append "Merge "
        "dev") " into ") "main"⟩] ∧
    alistFind (merge_repo ⟨"main", "dev"⟩ stateClean).1.branches "main" =
      some stateClean.commits.length :=
  merge_repo_clean_creates_merge_commit ⟨"main", "dev"⟩ stateClean 1 2
    (by decide) (by decide) (by decide)

/-- C9: immediately after merge_repo returns MERGED on a record,
repo_needs_merge on the same record reports false: the new local tip is a
merge commit having the upstream tip among its parents, so the upstream tip
is an ancestor of the local tip. -/
theorem repo_needs_merge_false_after_merge
    (cfg : MergeCfg) (s s' : MergeRepoState)
    (h : merge_repo cfg s = (s', .merged)) :
    repo_needs_merge s' cfg.branch cfg.upstream_branch = Except.ok false := by
  cases hf1 : alistFind s.branches cfg.branch with
  | none =>
    simp only [merge_repo, hf1] at h
    exact absurd (congrArg Prod.snd h) (by simp)
  | some myTip =>
    cases hf2 : alistFind s.branches cfg.upstream_branch with
    | none =>
      simp only [merge_repo, hf1, hf2] at h
      exact absurd (congrArg Prod.snd h) (by simp)
    | some upTip =>
      cases hout : s.mergeOutcome with
      | hardError msg =>
        simp only [merge_repo, hf1, hf2, hout] at h
        exact absurd (congrArg Prod.snd h) (by simp)
      | completed n =>
        simp only [merge_repo, hf1, hf2, hout] at h
        by_cases hn : 0 < n
        · rw [if_pos hn] at h
          exact absurd (congrArg Prod.snd h) (by simp)
        · rw [if_neg hn] at h
          have hs' : s' =
              { commits := s.commits ++
                  [⟨[myTip, upTip],
                    String.append (String.append (String.append "Merge "
                      cfg.upstream_branch) " into ") cfg.branch⟩],
                branches := upsert s.branches cfg.branch s.commits.length,
                activeBranch := cfg.branch,
                mergeOutcome := MergeOutcome.completed n } :=
            (congrArg Prod.fst h).symm
          subst hs'
          by_cases hbu : cfg.upstream_branch = cfg.branch
          · simp only [repo_needs_merge, hbu,
              alistFind_upsert_self s.branches cfg.branch s.commits.length,
              is_ancestor_self, Bool.not_true]
          · have hne := alistFind_upsert_ne s.branches cfg.branch
              cfg.upstream_branch s.commits.length hbu
            simp only [repo_needs_merge,
              alistFind_upsert_self s.branches cfg.branch s.commits.length, hne, hf2]
            rw [is_ancestor_parent s.commits _ upTip (by simp)]
            rfl

/-- The state merge_repo produces from stateClean: one new merge commit, with
main advanced onto it. -/
def stateMerged : MergeRepoState :=
  { commits := [⟨[], "root"⟩, ⟨[0], "local work"⟩, ⟨[0], "upstream work"⟩,
      ⟨[1, 2], "Merge dev into main"⟩]
    branches := [("main", 3), ("dev", 2)]
    activeBranch := "main"
    mergeOutcome := .completed 0 }

/-- Witness for C9: right after the clean merge on stateClean, the same record
no longer needs a merge. -/
theorem repo_needs_merge_false_after_merge_witness :
    repo_needs_merge stateMerged "main" "dev" = Except.ok false :=
  repo_needs_merge_false_after_merge ⟨"main", "dev"⟩ stateClean stateMerged (by decide)

/-- A resolved record as real_main's prep_cfgs mapping stores it: the dict
with the section options plus the path and branch keys, restricted to the
four fields every resolved record carries. -/
structure RawCfg where
  path : String
  branch : String
  upstream_branch : String
  upstream_url : String
deriving DecidableEq

/-- Reading a key from the record's dict form (cfg.get(k)): only the field
names are keys, so any other string — in particular an absolute repository
path — is absent. -/
def RawCfg.getField (c : RawCfg) (k : String) : Option String :=
  if k == "path" then some c.path
  else if k == "branch" then some c.branch
  else if k == "upstream_branch" then some c.upstream_branch
  else if k == "upstream_url" then some c.upstream_url
  else none

/-- get_repos_needing_merge (prep.py:128-133): the repositories whose record
reports a needed merge; the git ancestry check repo_needs_merge(dir, branch,
upstream_branch) is the oracle parameter needs. -/
def get_repos_needing_merge (needs : String → String → String → Bool)
    (prep_cfgs : List (String × RawCfg)) : List String :=
  (prep_cfgs.filter (fun pc => needs pc.1 pc.2.branch pc.2.upstream_branch)).map Prod.fst

/-- The merge-upstream branch of real_main (prep.py:265-273), reduced to the
argument it hands merge_repo for each repository needing a merge.  After the
configure loop (prep.py:227-228) the loop variable prep_cfg still holds the
LAST record of the mapping, and the merge loop evaluates
prep_cfg.get(needs_merge_dir, None) — a lookup of the repository path among
the field names of that leftover record — rather than
prep_cfgs.get(needs_merge_dir, None).  The result pairs each needing-merge
repository with the value actually passed to merge_repo. -/
def merge_upstream_args (needs : String → String → String → Bool)
    (prep_cfgs : List (String × RawCfg)) : List (String × Option String) :=
  (get_repos_needing_merge needs prep_cfgs).map
    (fun d => (d, (prep_cfgs.getLast?).bind (fun pc => pc.2.getField d)))

/-- The record the claim says each merge call should receive: the
repository's own entry of the resolved mapping, prep_cfgs.get(repo_dir, None)
— as the push branch (prep.py:264) does correctly. -/
def record_for_repo (prep_cfgs : List (String × RawCfg)) (d : String) : Option RawCfg :=
  alistFind prep_cfgs d

/-- A resolved mapping with a single record, for a repository /r/lib. -/
def exPrepCfgs : List (String × RawCfg) :=
  [("/r/lib", ⟨"lib", "main", "upstream-main", "https://example.org/lib.git"⟩)]

/-- C2 at the failing input: with a single resolved record whose repository
needs a merge, the merge-upstream action passes None to merge_repo — the
repository path is looked up among the field names of the configure loop's
leftover record — although the resolved mapping does hold that repository's
own record.  merge_repo then falls back to the active branch instead of the
record's branches. -/
theorem merge_upstream_stale_cfg :
    merge_upstream_args (fun _ _ _ => true) exPrepCfgs = [("/r/lib", none)] ∧
    record_for_repo exPrepCfgs "/r/lib" =
      some ⟨"lib", "main", "upstream-main", "https://example.org/lib.git"⟩ := by
  decide

end GitSubmodulePrep
